import Mathlib

/-!
Verification development for the Accelerando metronome engine.

The definitions below are a shallow embedding of the TypeScript sources:
`AudioEngine` from `src/services/audioEngine.ts` (and its variant with
sound-type dispatch), and the preset import/export logic of the main App
component.  Audio-clock times and tempi are modelled as rationals (exact
arithmetic over the JS doubles used by the source), counters as naturals.
-/

namespace Accelerando

/-- The mutable fields of the `AudioEngine` class that the scheduling logic
reads and writes: playback flag, the playback cursor
(`nextNoteTime`, `currentBeat`, `barCount`) and the settings
(`bpm`, `beatsPerBar`, speed-trainer fields). -/
structure EngineState where
  isPlaying : Bool
  nextNoteTime : ℚ
  currentBeat : ℕ
  barCount : ℕ
  bpm : ℚ
  beatsPerBar : ℕ
  increaseAmount : ℚ
  increaseIntervalBars : ℕ
  maxBpm : ℚ
deriving DecidableEq, Repr

/-- `scheduleAheadTime` from the source: the 0.1 s lookahead window. -/
def scheduleAheadTime : ℚ := 1 / 10

/-- The fixed lead-in added to the clock reading by `start()` (0.1 s). -/
def leadIn : ℚ := 1 / 10

/-- `setSettings(bpm, beatsPerBar, increaseAmount, increaseIntervalBars, maxBpm)`:
overwrites the five settings fields, leaving the playback cursor alone. -/
def setSettings (s : EngineState) (bpm : ℚ) (beatsPerBar : ℕ)
    (increaseAmount : ℚ) (increaseIntervalBars : ℕ) (maxBpm : ℚ) : EngineState :=
  { s with bpm := bpm, beatsPerBar := beatsPerBar, increaseAmount := increaseAmount,
           increaseIntervalBars := increaseIntervalBars, maxBpm := maxBpm }

/-- `handleSpeedIncrease()`: clamp `bpm + increaseAmount` at `maxBpm`; if the
result differs from the current bpm, store it and report it through
`onBpmChangeCallback` (the reported value is the `Option ℚ`). -/
def handleSpeedIncrease (s : EngineState) : EngineState × Option ℚ :=
  let newBpm := min (s.bpm + s.increaseAmount) s.maxBpm
  if newBpm ≠ s.bpm then ({ s with bpm := newBpm }, some newBpm)
  else (s, none)

/-- `nextNote()`: advance `nextNoteTime` by `60/bpm` (computed from the bpm in
force before any ramp), increment `currentBeat`; on `currentBeat === beatsPerBar`
reset the beat, increment `barCount`, and when both speed-trainer settings are
positive and the post-increment `barCount` is a multiple of
`increaseIntervalBars`, run `handleSpeedIncrease`.  The `Option ℚ` is the bpm
value reported to the UI, if any. -/
def nextNote (s : EngineState) : EngineState × Option ℚ :=
  let s1 := { s with nextNoteTime := s.nextNoteTime + 60 / s.bpm,
                     currentBeat := s.currentBeat + 1 }
  if s1.currentBeat = s1.beatsPerBar then
    let s2 := { s1 with currentBeat := 0, barCount := s1.barCount + 1 }
    if 0 < s2.increaseAmount ∧ 0 < s2.increaseIntervalBars then
      if s2.barCount % s2.increaseIntervalBars = 0 then handleSpeedIncrease s2
      else (s2, none)
    else (s2, none)
  else (s1, none)

/-- The state part of one `nextNote()` advance. -/
def stepState (s : EngineState) : EngineState := (nextNote s).1

/-- The engine state after `n` consecutive `nextNote()` advances. -/
def nthState (s : EngineState) (n : ℕ) : EngineState := stepState^[n] s

/-- A scheduled beat event: the pair `(currentBeat, nextNoteTime)` that
`scheduler()` passes to `scheduleNote`. -/
structure Ev where
  beat : ℕ
  time : ℚ
deriving DecidableEq, Repr

/-- The `n`-th beat event of the canonical run from state `s`: the value
`scheduleNote` receives at the `n`-th iteration of the drain loop, however the
iterations are distributed over poll invocations. -/
def eventAt (s : EngineState) (n : ℕ) : Ev :=
  ⟨(nthState s n).currentBeat, (nthState s n).nextNoteTime⟩

/-- The first `n` canonical beat events from state `s`. -/
def eventList (s : EngineState) (n : ℕ) : List Ev :=
  (List.range n).map (eventAt s)

/-- The `while` loop of `scheduler()`: as long as `nextNoteTime` is inside the
window `now + scheduleAheadTime`, emit `(currentBeat, nextNoteTime)` and run
`nextNote()`.  `fuel` bounds the number of iterations (the JS loop has no such
bound; every theorem below that needs the loop to have finished states that as
the `drained` postcondition). -/
def schedulerRun : ℕ → ℚ → EngineState → EngineState × List Ev
  | 0, _, s => (s, [])
  | fuel + 1, now, s =>
    if s.nextNoteTime < now + scheduleAheadTime then
      let ev : Ev := ⟨s.currentBeat, s.nextNoteTime⟩
      let r := schedulerRun fuel now (stepState s)
      (r.1, ev :: r.2)
    else (s, [])

/-- The loop condition of `scheduler()` is false: every due event has been
drained. -/
def drained (now : ℚ) (s : EngineState) : Prop :=
  ¬ s.nextNoteTime < now + scheduleAheadTime

instance (now : ℚ) (s : EngineState) : Decidable (drained now s) := by
  unfold drained; infer_instance

/-- Number of loop iterations `schedulerRun` performs. -/
def dueCount : ℕ → ℚ → EngineState → ℕ
  | 0, _, _ => 0
  | fuel + 1, now, s =>
    if s.nextNoteTime < now + scheduleAheadTime then
      dueCount fuel now (stepState s) + 1
    else 0

/-- `start()`: no-op while playing; otherwise reset the playback cursor and
seed `nextNoteTime` from the clock reading plus the 0.1 s lead-in.  (The
synchronous `scheduler()` call it ends with schedules nothing at the same
clock reading, since `now + leadIn < now + scheduleAheadTime` is false.) -/
def start (now : ℚ) (s : EngineState) : EngineState :=
  if s.isPlaying then s
  else { s with isPlaying := true, currentBeat := 0, barCount := 0,
                nextNoteTime := now + leadIn }

/-- `stop()`: clear the playing flag (and cancel the pending poll timer). -/
def stop (s : EngineState) : EngineState := { s with isPlaying := false }

/-- Tempo positivity, the domain of the timing claims: the current bpm is
positive, and if ramping is enabled the ceiling is positive too (so that a
clamped ramp cannot drive the bpm nonpositive). -/
def TempoPos (s : EngineState) : Prop :=
  0 < s.bpm ∧ (0 < s.increaseAmount → 0 < s.maxBpm)

/-! ### Basic lemmas about the advance step -/

theorem stepState_const (s : EngineState) :
    (stepState s).beatsPerBar = s.beatsPerBar ∧
    (stepState s).increaseAmount = s.increaseAmount ∧
    (stepState s).increaseIntervalBars = s.increaseIntervalBars ∧
    (stepState s).maxBpm = s.maxBpm ∧
    (stepState s).isPlaying = s.isPlaying := by
  simp only [stepState, nextNote, handleSpeedIncrease]
  repeat' split
  all_goals simp

theorem stepState_nextNoteTime (s : EngineState) :
    (stepState s).nextNoteTime = s.nextNoteTime + 60 / s.bpm := by
  simp only [stepState, nextNote, handleSpeedIncrease]
  repeat' split
  all_goals simp

theorem stepState_bpm_cases (s : EngineState) :
    (stepState s).bpm = s.bpm ∨
      ((stepState s).bpm = min (s.bpm + s.increaseAmount) s.maxBpm ∧
        0 < s.increaseAmount) := by
  simp only [stepState, nextNote, handleSpeedIncrease]
  repeat' split
  all_goals simp_all

theorem stepState_tempoPos (s : EngineState) (h : TempoPos s) : TempoPos (stepState s) := by
  obtain ⟨hb, hm⟩ := h
  obtain ⟨-, hamt, -, hmax, -⟩ := stepState_const s
  unfold TempoPos
  refine ⟨?_, ?_⟩
  · rcases stepState_bpm_cases s with hcase | ⟨hcase, hpos⟩
    · rw [hcase]; exact hb
    · rw [hcase]
      exact lt_min (by linarith) (hm hpos)
  · rw [hamt, hmax]; exact hm

theorem nthState_succ (s : EngineState) (n : ℕ) :
    nthState s (n + 1) = nthState (stepState s) n := by
  simp only [nthState, Function.iterate_succ_apply]

theorem nthState_add (s : EngineState) (a b : ℕ) :
    nthState s (a + b) = nthState (nthState s a) b := by
  simp only [nthState, Nat.add_comm a b, Function.iterate_add_apply]

theorem eventAt_step (s : EngineState) (n : ℕ) :
    eventAt (stepState s) n = eventAt s (n + 1) := by
  simp only [eventAt, nthState_succ]

theorem eventList_succ (s : EngineState) (n : ℕ) :
    eventList s (n + 1) =
      ⟨s.currentBeat, s.nextNoteTime⟩ :: eventList (stepState s) n := by
  simp only [eventList, List.range_succ_eq_map, List.map_cons, List.map_map]
  refine List.cons_eq_cons.mpr ⟨rfl, ?_⟩
  exact List.map_congr_left fun m _ => by
    simp [Function.comp, eventAt_step]

/-- `schedulerRun` is fully characterised by the number of drained events:
its final state is the corresponding canonical state, and the emitted events
are the canonical prefix of the beat-event stream. -/
theorem schedulerRun_eq (fuel : ℕ) (now : ℚ) (s : EngineState) :
    schedulerRun fuel now s =
      (nthState s (dueCount fuel now s), eventList s (dueCount fuel now s)) := by
  induction fuel generalizing s with
  | zero => simp [schedulerRun, dueCount, eventList, nthState]
  | succ fuel ih =>
    simp only [schedulerRun, dueCount]
    split
    · rw [ih, nthState_succ, eventList_succ]
    · simp [eventList, nthState]

theorem nthState_succ_outer (s : EngineState) (n : ℕ) :
    nthState s (n + 1) = stepState (nthState s n) := by
  simp only [nthState, Function.iterate_succ_apply']

theorem nthState_tempoPos (s : EngineState) (h : TempoPos s) (n : ℕ) :
    TempoPos (nthState s n) := by
  induction n with
  | zero => exact h
  | succ n ih => rw [nthState_succ_outer]; exact stepState_tempoPos _ ih

theorem eventAt_add (s : EngineState) (a m : ℕ) :
    eventAt (nthState s a) m = eventAt s (a + m) := by
  simp only [eventAt, nthState_add]

theorem eventList_add (s : EngineState) (a b : ℕ) :
    eventList s (a + b) = eventList s a ++ eventList (nthState s a) b := by
  simp only [eventList, List.range_add, List.map_append, List.map_map]
  refine congrArg _ (List.map_congr_left fun m _ => ?_)
  simp [Function.comp, eventAt_add]

theorem eventList_length (s : EngineState) (n : ℕ) :
    (eventList s n).length = n := by
  simp [eventList]

/-- If a `schedulerRun` invocation finishes draining its window, giving it any
amount of extra fuel changes nothing. -/
theorem dueCount_fuel_mono (now : ℚ) :
    ∀ f g : ℕ, ∀ s : EngineState, f ≤ g →
      drained now (nthState s (dueCount f now s)) →
      dueCount g now s = dueCount f now s := by
  intro f
  induction f with
  | zero =>
    intro g s _ hdr
    simp only [dueCount, nthState, Function.iterate_zero_apply, drained] at hdr ⊢
    cases g with
    | zero => rfl
    | succ g =>
      simp only [dueCount]
      rw [if_neg hdr]
  | succ f ih =>
    intro g s hfg hdr
    cases g with
    | zero => exact absurd hfg (by omega)
    | succ g =>
      simp only [dueCount] at hdr ⊢
      by_cases hc : s.nextNoteTime < now + scheduleAheadTime
      · rw [if_pos hc] at hdr
        rw [if_pos hc, if_pos hc]
        rw [nthState_succ] at hdr
        rw [ih g (stepState s) (by omega) hdr]
      · rw [if_neg hc, if_neg hc]

/-- Composition of two polls: polling at `t1` and then at `t2 ≥ t1` drains
exactly as many events as a single poll at `t2` would, in two contiguous
chunks. -/
theorem dueCount_compose (t1 t2 : ℚ) (h12 : t1 ≤ t2) :
    ∀ f1 f2 : ℕ, ∀ s : EngineState,
      drained t1 (nthState s (dueCount f1 t1 s)) →
      drained t2 (nthState (nthState s (dueCount f1 t1 s))
        (dueCount f2 t2 (nthState s (dueCount f1 t1 s)))) →
      dueCount (f1 + f2) t2 s =
        dueCount f1 t1 s + dueCount f2 t2 (nthState s (dueCount f1 t1 s)) := by
  intro f1
  induction f1 with
  | zero =>
    intro f2 s h1 h2
    simp only [dueCount, nthState, Function.iterate_zero_apply, Nat.zero_add]
  | succ f1 ih =>
    intro f2 s h1 h2
    by_cases hc : s.nextNoteTime < t1 + scheduleAheadTime
    · have hc2 : s.nextNoteTime < t2 + scheduleAheadTime := by linarith
      have hk1 : dueCount (f1 + 1) t1 s = dueCount f1 t1 (stepState s) + 1 := by
        simp only [dueCount]; rw [if_pos hc]
      have hK : dueCount (f1 + 1 + f2) t2 s = dueCount (f1 + f2) t2 (stepState s) + 1 := by
        have harith : f1 + 1 + f2 = (f1 + f2) + 1 := by omega
        rw [harith]; simp only [dueCount]; rw [if_pos hc2]
      rw [hk1, nthState_succ] at h1 h2
      rw [hk1, hK, nthState_succ, ih f2 (stepState s) h1 h2]
      omega
    · have hk1 : dueCount (f1 + 1) t1 s = 0 := by
        simp only [dueCount]; rw [if_neg hc]
      rw [hk1] at h1 h2 ⊢
      simp only [nthState, Function.iterate_zero_apply, Nat.zero_add] at h1 h2 ⊢
      exact dueCount_fuel_mono t2 f2 (f1 + 1 + f2) s (by omega) h2

theorem nthState_time_step (s : EngineState) (n : ℕ) :
    (nthState s (n + 1)).nextNoteTime =
      (nthState s n).nextNoteTime + 60 / (nthState s n).bpm := by
  rw [nthState_succ_outer, stepState_nextNoteTime]

theorem nthState_time_mono (s : EngineState) (h : TempoPos s) :
    ∀ a b : ℕ, a ≤ b →
      (nthState s a).nextNoteTime ≤ (nthState s b).nextNoteTime := by
  have hstep : ∀ n : ℕ, (nthState s n).nextNoteTime ≤ (nthState s (n + 1)).nextNoteTime := by
    intro n
    rw [nthState_time_step]
    have hbpm : 0 < (nthState s n).bpm := (nthState_tempoPos s h n).1
    have : 0 < 60 / (nthState s n).bpm := by positivity
    linarith
  intro a b hab
  induction b with
  | zero => simp_all
  | succ b ih =>
    rcases Nat.lt_or_ge a (b + 1) with hlt | hge
    · exact le_trans (ih (by omega)) (hstep b)
    · have : a = b + 1 := by omega
      simp [this]

/-- After a completed drain at clock reading `now`, every canonical event not
yet emitted lies at or beyond the lookahead horizon: nothing due was dropped. -/
theorem events_beyond_not_due (s : EngineState) (h : TempoPos s) (now : ℚ) (k : ℕ)
    (hdr : drained now (nthState s k)) :
    ∀ m : ℕ, k ≤ m → now + scheduleAheadTime ≤ (eventAt s m).time := by
  intro m hkm
  have hmono := nthState_time_mono s h k m hkm
  simp only [drained, not_lt] at hdr
  simp only [eventAt]
  linarith

/-! ### C1: sporadic polling schedules the same beat events as regular polling -/

/-- C1: with positive tempo, the scheduled beat events are independent of how
the driving poll fires.  Polling at `t1` and then at `t2 ≥ t1` (each poll
draining its window) yields exactly the state and the concatenated event list
of a single poll at `t2` — so a skipped or delayed poll drops, duplicates and
time-shifts nothing.  Moreover the emitted events are always the canonical
prefix of the beat stream determined by the starting state alone, consecutive
event times differ by exactly `60/tempo` for the tempo in force at that step
(`nextNoteTime` advances from its own prior value, never from the clock
reading), and after a drain every unemitted event lies beyond the horizon. -/
theorem scheduler_sporadic_poll_faithful
    (s : EngineState) (hPos : TempoPos s)
    (t1 t2 : ℚ) (h12 : t1 ≤ t2) (f1 f2 : ℕ)
    (h1 : drained t1 (schedulerRun f1 t1 s).1)
    (h2 : drained t2 (schedulerRun f2 t2 (schedulerRun f1 t1 s).1).1) :
    ((schedulerRun (f1 + f2) t2 s).1 = (schedulerRun f2 t2 (schedulerRun f1 t1 s).1).1 ∧
      (schedulerRun (f1 + f2) t2 s).2 =
        (schedulerRun f1 t1 s).2 ++ (schedulerRun f2 t2 (schedulerRun f1 t1 s).1).2) ∧
    (schedulerRun (f1 + f2) t2 s).2 =
      eventList s ((schedulerRun (f1 + f2) t2 s).2.length) ∧
    (∀ n : ℕ, (eventAt s (n + 1)).time = (eventAt s n).time + 60 / (nthState s n).bpm) ∧
    (∀ m : ℕ, (schedulerRun (f1 + f2) t2 s).2.length ≤ m →
      t2 + scheduleAheadTime ≤ (eventAt s m).time) := by
  have e1 := schedulerRun_eq f1 t1 s
  have h1a : drained t1 (nthState s (dueCount f1 t1 s)) := by rw [e1] at h1; exact h1
  have e2 := schedulerRun_eq f2 t2 (nthState s (dueCount f1 t1 s))
  have h2a : drained t2 (nthState (nthState s (dueCount f1 t1 s))
      (dueCount f2 t2 (nthState s (dueCount f1 t1 s)))) := by
    rw [e1, e2] at h2; exact h2
  have hKeq := dueCount_compose t1 t2 h12 f1 f2 s h1a h2a
  have eK := schedulerRun_eq (f1 + f2) t2 s
  refine ⟨⟨?_, ?_⟩, ?_, ?_, ?_⟩
  · simp only [eK, e1, e2, hKeq, nthState_add]
  · simp only [eK, e1, e2, hKeq, eventList_add]
  · simp only [eK, eventList_length]
  · intro n
    simp only [eventAt]
    exact nthState_time_step s n
  · intro m hm
    simp only [eK, eventList_length] at hm
    have hdrK : drained t2 (nthState s (dueCount (f1 + f2) t2 s)) := by
      rw [hKeq, nthState_add]; exact h2a
    exact events_beyond_not_due s hPos t2 _ hdrK m hm

/-- A concrete running state: 60 bpm, 4/4, ramping off, fresh cursor at
clock 0. -/
def cState1 : EngineState :=
  { isPlaying := true, nextNoteTime := 0, currentBeat := 0, barCount := 0,
    bpm := 60, beatsPerBar := 4, increaseAmount := 0, increaseIntervalBars := 0,
    maxBpm := 200 }

/-- Witness for C1: the sporadic-polling theorem instantiated at a concrete
state, polls at clock 0 and clock 1. -/
theorem scheduler_sporadic_poll_faithful_witness :
    (TempoPos cState1 ∧ (0 : ℚ) ≤ 1 ∧
      drained 0 (schedulerRun 4 0 cState1).1 ∧
      drained 1 (schedulerRun 8 1 (schedulerRun 4 0 cState1).1).1) ∧
    (((schedulerRun (4 + 8) 1 cState1).1 =
        (schedulerRun 8 1 (schedulerRun 4 0 cState1).1).1 ∧
      (schedulerRun (4 + 8) 1 cState1).2 =
        (schedulerRun 4 0 cState1).2 ++ (schedulerRun 8 1 (schedulerRun 4 0 cState1).1).2) ∧
    (schedulerRun (4 + 8) 1 cState1).2 =
      eventList cState1 ((schedulerRun (4 + 8) 1 cState1).2.length) ∧
    (∀ n : ℕ, (eventAt cState1 (n + 1)).time =
      (eventAt cState1 n).time + 60 / (nthState cState1 n).bpm) ∧
    (∀ m : ℕ, (schedulerRun (4 + 8) 1 cState1).2.length ≤ m →
      (1 : ℚ) + scheduleAheadTime ≤ (eventAt cState1 m).time)) :=
  ⟨⟨by norm_num [TempoPos, cState1], by norm_num,
      by norm_num [drained, schedulerRun, cState1, stepState, nextNote,
        handleSpeedIncrease, scheduleAheadTime],
      by norm_num [drained, schedulerRun, cState1, stepState, nextNote,
        handleSpeedIncrease, scheduleAheadTime]⟩,
    scheduler_sporadic_poll_faithful cState1 (by norm_num [TempoPos, cState1]) 0 1
      (by norm_num) 4 8
      (by norm_num [drained, schedulerRun, cState1, stepState, nextNote,
        handleSpeedIncrease, scheduleAheadTime])
      (by norm_num [drained, schedulerRun, cState1, stepState, nextNote,
        handleSpeedIncrease, scheduleAheadTime])⟩

/-! ### C2: the tempo update rule at bar completion -/

/-- C2: when an advance completes a bar (post-increment `barCount` is
`s.barCount + 1`): no tempo change when `increaseAmount = 0` or
`increaseIntervalBars = 0`; otherwise, on a multiple of the interval the tempo
becomes `min (bpm + amount) maxBpm` and the change notification fires exactly
when that candidate differs from the old bpm; on a non-multiple nothing
changes; the first ramp cannot occur before `increaseIntervalBars` completed
bars and does occur at exactly that bar; and when the bpm already exceeds
`maxBpm` the clamp selects `maxBpm`, a decrease, and reports it. -/
theorem bar_completion_tempo_rule (s : EngineState)
    (hbar : s.currentBeat + 1 = s.beatsPerBar) :
    ((s.increaseAmount = 0 ∨ s.increaseIntervalBars = 0) →
      (nextNote s).1.bpm = s.bpm ∧ (nextNote s).2 = none) ∧
    (0 < s.increaseAmount → 0 < s.increaseIntervalBars →
      (s.barCount + 1) % s.increaseIntervalBars = 0 →
        (nextNote s).1.bpm = min (s.bpm + s.increaseAmount) s.maxBpm ∧
        ((nextNote s).2 = some (min (s.bpm + s.increaseAmount) s.maxBpm) ↔
          min (s.bpm + s.increaseAmount) s.maxBpm ≠ s.bpm) ∧
        ((nextNote s).2 = none ↔ min (s.bpm + s.increaseAmount) s.maxBpm = s.bpm)) ∧
    (0 < s.increaseAmount → 0 < s.increaseIntervalBars →
      (s.barCount + 1) % s.increaseIntervalBars ≠ 0 →
        (nextNote s).1.bpm = s.bpm ∧ (nextNote s).2 = none) ∧
    (0 < s.increaseAmount → s.barCount + 1 < s.increaseIntervalBars →
      (nextNote s).1.bpm = s.bpm ∧ (nextNote s).2 = none) ∧
    (0 < s.increaseAmount → s.barCount + 1 = s.increaseIntervalBars →
      (nextNote s).1.bpm = min (s.bpm + s.increaseAmount) s.maxBpm) ∧
    (0 < s.increaseAmount → 0 < s.increaseIntervalBars →
      (s.barCount + 1) % s.increaseIntervalBars = 0 → s.maxBpm < s.bpm →
        (nextNote s).1.bpm = s.maxBpm ∧ (nextNote s).1.bpm < s.bpm ∧
        (nextNote s).2 = some s.maxBpm) := by
  have hramp : ∀ h1 : 0 < s.increaseAmount, ∀ h2 : 0 < s.increaseIntervalBars,
      (s.barCount + 1) % s.increaseIntervalBars = 0 →
        (nextNote s).1.bpm = min (s.bpm + s.increaseAmount) s.maxBpm ∧
        ((nextNote s).2 = some (min (s.bpm + s.increaseAmount) s.maxBpm) ↔
          min (s.bpm + s.increaseAmount) s.maxBpm ≠ s.bpm) ∧
        ((nextNote s).2 = none ↔ min (s.bpm + s.increaseAmount) s.maxBpm = s.bpm) := by
    intro h1 h2 h3
    by_cases hne : min (s.bpm + s.increaseAmount) s.maxBpm = s.bpm
    · simp [nextNote, handleSpeedIncrease, hbar, h1, h2, h3, hne]
    · simp [nextNote, handleSpeedIncrease, hbar, h1, h2, h3, hne]
  refine ⟨?_, hramp, ?_, ?_, ?_, ?_⟩
  · rintro (h | h)
    · simp [nextNote, hbar, h]
    · simp [nextNote, hbar, h]
  · intro h1 h2 h3
    simp [nextNote, hbar, h1, h2, h3]
  · intro h1 hlt
    have h3 : (s.barCount + 1) % s.increaseIntervalBars = s.barCount + 1 :=
      Nat.mod_eq_of_lt hlt
    have h4 : (s.barCount + 1) % s.increaseIntervalBars ≠ 0 := by omega
    have h2 : 0 < s.increaseIntervalBars := by omega
    simp [nextNote, hbar, h1, h2, h4]
  · intro h1 heq
    have h2 : 0 < s.increaseIntervalBars := by omega
    have h3 : (s.barCount + 1) % s.increaseIntervalBars = 0 := by
      rw [heq]; exact Nat.mod_self _
    exact (hramp h1 h2 h3).1
  · intro h1 h2 h3 hover
    obtain ⟨hbpm, hsome, -⟩ := hramp h1 h2 h3
    have hmin : min (s.bpm + s.increaseAmount) s.maxBpm = s.maxBpm :=
      min_eq_right (by linarith)
    refine ⟨by rw [hbpm, hmin], by rw [hbpm, hmin]; exact hover, ?_⟩
    rw [hmin] at hsome
    exact hsome.mpr (by linarith)

/-- A concrete bar-boundary state: beat 3 of 4, three bars done, ramp 5 bpm
every 4 bars, bpm 100, ceiling 200. -/
def cState2 : EngineState :=
  { isPlaying := true, nextNoteTime := 16, currentBeat := 3, barCount := 3,
    bpm := 100, beatsPerBar := 4, increaseAmount := 5, increaseIntervalBars := 4,
    maxBpm := 200 }

/-- Witness for C2 at the concrete bar-boundary state `cState2`. -/
theorem bar_completion_tempo_rule_witness :
    (cState2.currentBeat + 1 = cState2.beatsPerBar) ∧
    (((cState2.increaseAmount = 0 ∨ cState2.increaseIntervalBars = 0) →
      (nextNote cState2).1.bpm = cState2.bpm ∧ (nextNote cState2).2 = none) ∧
    (0 < cState2.increaseAmount → 0 < cState2.increaseIntervalBars →
      (cState2.barCount + 1) % cState2.increaseIntervalBars = 0 →
        (nextNote cState2).1.bpm =
          min (cState2.bpm + cState2.increaseAmount) cState2.maxBpm ∧
        ((nextNote cState2).2 =
            some (min (cState2.bpm + cState2.increaseAmount) cState2.maxBpm) ↔
          min (cState2.bpm + cState2.increaseAmount) cState2.maxBpm ≠ cState2.bpm) ∧
        ((nextNote cState2).2 = none ↔
          min (cState2.bpm + cState2.increaseAmount) cState2.maxBpm = cState2.bpm)) ∧
    (0 < cState2.increaseAmount → 0 < cState2.increaseIntervalBars →
      (cState2.barCount + 1) % cState2.increaseIntervalBars ≠ 0 →
        (nextNote cState2).1.bpm = cState2.bpm ∧ (nextNote cState2).2 = none) ∧
    (0 < cState2.increaseAmount →
      cState2.barCount + 1 < cState2.increaseIntervalBars →
        (nextNote cState2).1.bpm = cState2.bpm ∧ (nextNote cState2).2 = none) ∧
    (0 < cState2.increaseAmount →
      cState2.barCount + 1 = cState2.increaseIntervalBars →
        (nextNote cState2).1.bpm =
          min (cState2.bpm + cState2.increaseAmount) cState2.maxBpm) ∧
    (0 < cState2.increaseAmount → 0 < cState2.increaseIntervalBars →
      (cState2.barCount + 1) % cState2.increaseIntervalBars = 0 →
        cState2.maxBpm < cState2.bpm →
        (nextNote cState2).1.bpm = cState2.maxBpm ∧
        (nextNote cState2).1.bpm < cState2.bpm ∧
        (nextNote cState2).2 = some cState2.maxBpm)) :=
  ⟨by decide, bar_completion_tempo_rule cState2 (by decide)⟩

/-! ### C3: the ramped tempo sequence across bars -/

theorem nthState_const (s : EngineState) (n : ℕ) :
    (nthState s n).beatsPerBar = s.beatsPerBar ∧
    (nthState s n).increaseAmount = s.increaseAmount ∧
    (nthState s n).increaseIntervalBars = s.increaseIntervalBars ∧
    (nthState s n).maxBpm = s.maxBpm ∧
    (nthState s n).isPlaying = s.isPlaying := by
  induction n with
  | zero => exact ⟨rfl, rfl, rfl, rfl, rfl⟩
  | succ n ih =>
    obtain ⟨i1, i2, i3, i4, i5⟩ := ih
    obtain ⟨c1, c2, c3, c4, c5⟩ := stepState_const (nthState s n)
    rw [nthState_succ_outer]
    exact ⟨c1.trans i1, c2.trans i2, c3.trans i3, c4.trans i4, c5.trans i5⟩

/-- Incrementing a counter either wraps (when one short of the modulus) or
advances its residue, with the matching quotient update. -/
theorem succ_mod_div_cases (b I : ℕ) (hI : 0 < I) :
    (b % I + 1 = I ∧ (b + 1) % I = 0 ∧ (b + 1) / I = b / I + 1) ∨
    (b % I + 1 ≠ I ∧ (b + 1) % I = b % I + 1 ∧ (b + 1) / I = b / I) := by
  by_cases hw : b % I + 1 = I
  · left
    have hdm := Nat.div_add_mod b I
    have key : b + 1 = I * (b / I + 1) := by
      rw [Nat.mul_succ]
      conv_lhs => rw [← hdm]
      rw [Nat.add_assoc, hw]
    have hdvd : I ∣ b + 1 := ⟨b / I + 1, key⟩
    refine ⟨hw, ?_, Nat.succ_div_of_dvd hdvd⟩
    rw [key, Nat.mul_mod_right]
  · right
    have hlt : b % I + 1 < I :=
      lt_of_le_of_ne (Nat.succ_le_of_lt (Nat.mod_lt b hI)) hw
    have hmod : (b + 1) % I = b % I + 1 := by
      conv_lhs => rw [← Nat.div_add_mod b I]
      rw [Nat.add_assoc, Nat.mul_add_mod]
      exact Nat.mod_eq_of_lt hlt
    have hnd : ¬ I ∣ b + 1 := by
      rintro ⟨k, hk⟩
      have : (b + 1) % I = 0 := by rw [hk, Nat.mul_mod_right]
      omega
    exact ⟨hw, hmod, Nat.succ_div_of_not_dvd hnd⟩

theorem stepState_wrap_counters (u : EngineState)
    (h : u.currentBeat + 1 = u.beatsPerBar) :
    (stepState u).currentBeat = 0 ∧ (stepState u).barCount = u.barCount + 1 := by
  simp only [stepState, nextNote, handleSpeedIncrease]
  repeat' split
  all_goals simp_all

theorem stepState_no_wrap (u : EngineState)
    (h : u.currentBeat + 1 ≠ u.beatsPerBar) :
    (stepState u).currentBeat = u.currentBeat + 1 ∧
    (stepState u).barCount = u.barCount ∧ (stepState u).bpm = u.bpm := by
  simp only [stepState, nextNote]
  repeat' split
  all_goals simp_all

theorem stepState_wrap_bpm_ramp (u : EngineState)
    (h : u.currentBeat + 1 = u.beatsPerBar)
    (h1 : 0 < u.increaseAmount) (h2 : 0 < u.increaseIntervalBars)
    (h3 : (u.barCount + 1) % u.increaseIntervalBars = 0) :
    (stepState u).bpm = min (u.bpm + u.increaseAmount) u.maxBpm := by
  by_cases hne : min (u.bpm + u.increaseAmount) u.maxBpm = u.bpm
  · simp [stepState, nextNote, handleSpeedIncrease, h, h1, h2, h3, hne]
  · simp [stepState, nextNote, handleSpeedIncrease, h, h1, h2, h3, hne]

theorem stepState_wrap_bpm_nomod (u : EngineState)
    (h : u.currentBeat + 1 = u.beatsPerBar)
    (h3 : (u.barCount + 1) % u.increaseIntervalBars ≠ 0) :
    (stepState u).bpm = u.bpm := by
  simp only [stepState, nextNote, handleSpeedIncrease]
  repeat' split
  all_goals simp_all

/-- One ramp step as a pure function of the tempo. -/
def rampStep (r c t : ℚ) : ℚ := min (t + r) c

theorem rampStep_iterate (r c : ℚ) (hr : 0 ≤ r) (t : ℚ) :
    ∀ k : ℕ, 1 ≤ k → (rampStep r c)^[k] t = min (t + (k : ℚ) * r) c := by
  intro k
  induction k with
  | zero => intro h; exact absurd h (by omega)
  | succ k ih =>
    intro _
    rcases Nat.eq_zero_or_pos k with hk0 | hkpos
    · subst hk0
      simp [rampStep]
    · rw [Function.iterate_succ_apply', ih hkpos]
      unfold rampStep
      rw [← min_add_add_right, min_assoc, min_eq_right (by linarith : c ≤ c + r)]
      congr 1
      push_cast
      ring

/-- Canonical fresh run with ramping enabled: beat index, bar count and bpm
after `m` advances. -/
theorem nthState_fresh (s : EngineState) (hB : 0 < s.beatsPerBar)
    (h0 : s.currentBeat = 0) (hbar0 : s.barCount = 0)
    (hr : 0 < s.increaseAmount) (hI : 0 < s.increaseIntervalBars) :
    ∀ m : ℕ,
      (nthState s m).currentBeat = m % s.beatsPerBar ∧
      (nthState s m).barCount = m / s.beatsPerBar ∧
      (nthState s m).bpm =
        (rampStep s.increaseAmount s.maxBpm)^[m / s.beatsPerBar / s.increaseIntervalBars]
          s.bpm := by
  intro m
  induction m with
  | zero =>
    refine ⟨?_, ?_, ?_⟩ <;> simp [nthState, h0, hbar0]
  | succ m ih =>
    obtain ⟨ib, ibar, ibpm⟩ := ih
    obtain ⟨cB, cA, cI, cM, -⟩ := nthState_const s m
    rw [nthState_succ_outer]
    rcases succ_mod_div_cases m s.beatsPerBar hB with
      ⟨hwB, hmodB, hdivB⟩ | ⟨hwB, hmodB, hdivB⟩
    · -- the advance completes a bar
      have hw : (nthState s m).currentBeat + 1 = (nthState s m).beatsPerBar := by
        rw [ib, cB, hwB]
      obtain ⟨e0, ebar⟩ := stepState_wrap_counters _ hw
      refine ⟨by rw [e0, hmodB], by rw [ebar, ibar, hdivB], ?_⟩
      rcases succ_mod_div_cases (m / s.beatsPerBar) s.increaseIntervalBars hI with
        ⟨hwI, hmodI, hdivI⟩ | ⟨hwI, hmodI, hdivI⟩
      · -- ramp fires at this bar
        have h3 : ((nthState s m).barCount + 1) % (nthState s m).increaseIntervalBars = 0 := by
          rw [ibar, cI, hmodI]
        have := stepState_wrap_bpm_ramp _ hw (by rw [cA]; exact hr) (by rw [cI]; exact hI) h3
        rw [this, cA, cM, ibpm, hdivB, hdivI, Function.iterate_succ_apply']
        rfl
      · -- no ramp at this bar
        have h3 : ((nthState s m).barCount + 1) % (nthState s m).increaseIntervalBars ≠ 0 := by
          rw [ibar, cI, hmodI]
          omega
        rw [stepState_wrap_bpm_nomod _ hw h3, ibpm, hdivB, hdivI]
    · -- mid-bar advance
      have hw : (nthState s m).currentBeat + 1 ≠ (nthState s m).beatsPerBar := by
        rw [ib, cB]; exact hwB
      obtain ⟨e0, ebar, ebpm⟩ := stepState_no_wrap _ hw
      exact ⟨by rw [e0, ib, hmodB], by rw [ebar, ibar, hdivB],
        by rw [ebpm, ibpm, hdivB]⟩

/-- Once the tempo sits at the ceiling, any advance keeps it there and reports
no change. -/
theorem ceiling_absorbing (u : EngineState) (h : u.bpm = u.maxBpm) :
    (stepState u).bpm = u.bpm ∧ (nextNote u).2 = none := by
  by_cases hw : u.currentBeat + 1 = u.beatsPerBar
  · by_cases hs : 0 < u.increaseAmount ∧ 0 < u.increaseIntervalBars
    · by_cases hm : (u.barCount + 1) % u.increaseIntervalBars = 0
      · have hmin : min (u.bpm + u.increaseAmount) u.maxBpm = u.bpm := by
          rw [h]; exact min_eq_right (by linarith [hs.1])
        constructor
        · simp [stepState, nextNote, handleSpeedIncrease, hw, hs.1, hs.2, hm, hmin]
        · simp [nextNote, handleSpeedIncrease, hw, hs.1, hs.2, hm, hmin]
      · constructor <;> simp [stepState, nextNote, hw, hs.1, hs.2, hm]
    · constructor <;> simp [stepState, nextNote, hw, hs]
  · constructor <;> simp [stepState, nextNote, hw]

/-- C3 (amended: the starting tempo must not exceed the ceiling for the
monotonicity and boundedness parts; the closed form needs no such hypothesis):
from a fresh cursor with ramping enabled, the tempo at bar boundary
`k × rampIntervalBars` equals `min (tempo + k·rampAmount) ceiling` for every
`k ≥ 1`; the boundary tempo sequence is non-decreasing and bounded by the
ceiling; and a state whose tempo equals the ceiling keeps it on every further
advance with no further reported change. -/
theorem tempo_ramp_sequence (s : EngineState) (hB : 0 < s.beatsPerBar)
    (h0 : s.currentBeat = 0) (hbar0 : s.barCount = 0)
    (hr : 0 < s.increaseAmount) (hI : 0 < s.increaseIntervalBars)
    (hceil : s.bpm ≤ s.maxBpm) :
    (∀ k : ℕ, 1 ≤ k →
      (nthState s (k * s.increaseIntervalBars * s.beatsPerBar)).bpm =
        min (s.bpm + (k : ℚ) * s.increaseAmount) s.maxBpm) ∧
    (∀ k : ℕ,
      (nthState s (k * s.increaseIntervalBars * s.beatsPerBar)).bpm ≤
        (nthState s ((k + 1) * s.increaseIntervalBars * s.beatsPerBar)).bpm) ∧
    (∀ k : ℕ,
      (nthState s (k * s.increaseIntervalBars * s.beatsPerBar)).bpm ≤ s.maxBpm) ∧
    (∀ u : EngineState, u.bpm = u.maxBpm →
      (stepState u).bpm = u.bpm ∧ (nextNote u).2 = none) := by
  have hform : ∀ k : ℕ,
      (nthState s (k * s.increaseIntervalBars * s.beatsPerBar)).bpm =
        (rampStep s.increaseAmount s.maxBpm)^[k] s.bpm := by
    intro k
    obtain ⟨-, -, h⟩ :=
      nthState_fresh s hB h0 hbar0 hr hI (k * s.increaseIntervalBars * s.beatsPerBar)
    rw [h, Nat.mul_div_cancel _ hB, Nat.mul_div_cancel _ hI]
  have hmain : ∀ k : ℕ, 1 ≤ k →
      (nthState s (k * s.increaseIntervalBars * s.beatsPerBar)).bpm =
        min (s.bpm + (k : ℚ) * s.increaseAmount) s.maxBpm := by
    intro k hk
    rw [hform k, rampStep_iterate _ _ hr.le _ k hk]
  refine ⟨hmain, ?_, ?_, fun u hu => ceiling_absorbing u hu⟩
  · intro k
    rcases Nat.eq_zero_or_pos k with rfl | hk
    · rw [hform 0, Function.iterate_zero_apply, hmain 1 le_rfl]
      refine le_min (by push_cast; linarith) hceil
    · rw [hmain k hk, hmain (k + 1) (by omega)]
      refine min_le_min (add_le_add_left ?_ _) le_rfl
      exact mul_le_mul_of_nonneg_right (by push_cast; linarith) hr.le
  · intro k
    rcases Nat.eq_zero_or_pos k with rfl | hk
    · rw [hform 0, Function.iterate_zero_apply]; exact hceil
    · rw [hmain k hk]; exact min_le_right _ _

/-- A fresh running state with tempo 300 already above the 200 ceiling
(ramp 5 bpm every bar, one beat per bar). -/
def cState3 : EngineState :=
  { isPlaying := true, nextNoteTime := 0, currentBeat := 0, barCount := 0,
    bpm := 300, beatsPerBar := 1, increaseAmount := 5, increaseIntervalBars := 1,
    maxBpm := 200 }

/-- Counterexample to C3 as stated (quantified over all tempi): with tempo 300
above ceiling 200, the tempo at the first ramp boundary is 200 < 300, so the
boundary tempo sequence is not non-decreasing and its first element is not
bounded by the ceiling. -/
theorem tempo_ramp_sequence_counterexample :
    (nthState cState3 (1 * cState3.increaseIntervalBars * cState3.beatsPerBar)).bpm <
      (nthState cState3 (0 * cState3.increaseIntervalBars * cState3.beatsPerBar)).bpm := by
  norm_num [cState3, nthState, stepState, nextNote, handleSpeedIncrease]

/-- The spec's scenario state: tempo 80, 4/4, ramp 5 every bar, ceiling 200. -/
def cState3w : EngineState :=
  { isPlaying := true, nextNoteTime := 0, currentBeat := 0, barCount := 0,
    bpm := 80, beatsPerBar := 4, increaseAmount := 5, increaseIntervalBars := 1,
    maxBpm := 200 }

/-- Witness for C3 at the spec's scenario settings. -/
theorem tempo_ramp_sequence_witness :
    (0 < cState3w.beatsPerBar ∧ cState3w.currentBeat = 0 ∧ cState3w.barCount = 0 ∧
      0 < cState3w.increaseAmount ∧ 0 < cState3w.increaseIntervalBars ∧
      cState3w.bpm ≤ cState3w.maxBpm) ∧
    ((∀ k : ℕ, 1 ≤ k →
      (nthState cState3w (k * cState3w.increaseIntervalBars * cState3w.beatsPerBar)).bpm =
        min (cState3w.bpm + (k : ℚ) * cState3w.increaseAmount) cState3w.maxBpm) ∧
    (∀ k : ℕ,
      (nthState cState3w (k * cState3w.increaseIntervalBars * cState3w.beatsPerBar)).bpm ≤
        (nthState cState3w
          ((k + 1) * cState3w.increaseIntervalBars * cState3w.beatsPerBar)).bpm) ∧
    (∀ k : ℕ,
      (nthState cState3w (k * cState3w.increaseIntervalBars * cState3w.beatsPerBar)).bpm ≤
        cState3w.maxBpm) ∧
    (∀ u : EngineState, u.bpm = u.maxBpm →
      (stepState u).bpm = u.bpm ∧ (nextNote u).2 = none)) :=
  ⟨⟨by decide, rfl, rfl, by norm_num [cState3w], by decide, by norm_num [cState3w]⟩,
    tempo_ramp_sequence cState3w (by decide) rfl rfl (by norm_num [cState3w])
      (by decide) (by norm_num [cState3w])⟩

/-! ### C4: the beat index is a modular counter -/

/-- C4: from a fresh cursor the beat index carried by the `n`-th advance is
`n mod beatsPerBar` — the cycle `0, 1, …, beatsPerBar−1, 0, …` with no skips
and no repeats — and after every advance it stays inside `[0, beatsPerBar)`. -/
theorem beat_index_cycles (s : EngineState) (hB : 0 < s.beatsPerBar)
    (h0 : s.currentBeat = 0) :
    ∀ n : ℕ, (nthState s n).currentBeat = n % s.beatsPerBar ∧
      (nthState s n).currentBeat < s.beatsPerBar := by
  intro n
  induction n with
  | zero =>
    refine ⟨by simpa [nthState] using h0, ?_⟩
    simp only [nthState, Function.iterate_zero_apply, h0]
    exact hB
  | succ n ih =>
    obtain ⟨ib, -⟩ := ih
    obtain ⟨cB, -, -, -, -⟩ := nthState_const s n
    rw [nthState_succ_outer]
    rcases succ_mod_div_cases n s.beatsPerBar hB with
      ⟨hwB, hmodB, -⟩ | ⟨hwB, hmodB, -⟩
    · have hw : (nthState s n).currentBeat + 1 = (nthState s n).beatsPerBar := by
        rw [ib, cB, hwB]
      obtain ⟨e0, -⟩ := stepState_wrap_counters _ hw
      rw [e0, hmodB]
      exact ⟨rfl, hB⟩
    · have hw : (nthState s n).currentBeat + 1 ≠ (nthState s n).beatsPerBar := by
        rw [ib, cB]; exact hwB
      obtain ⟨e0, -, -⟩ := stepState_no_wrap _ hw
      rw [e0, ib, hmodB]
      have hlt : n % s.beatsPerBar < s.beatsPerBar := Nat.mod_lt _ hB
      exact ⟨rfl, by omega⟩

/-- A fresh running state in 4/4 at 120 bpm with a mild ramp. -/
def cState4 : EngineState :=
  { isPlaying := true, nextNoteTime := 0, currentBeat := 0, barCount := 0,
    bpm := 120, beatsPerBar := 4, increaseAmount := 2, increaseIntervalBars := 8,
    maxBpm := 180 }

/-- Witness for C4 at the concrete fresh state `cState4`. -/
theorem beat_index_cycles_witness :
    (0 < cState4.beatsPerBar ∧ cState4.currentBeat = 0) ∧
    (∀ n : ℕ, (nthState cState4 n).currentBeat = n % cState4.beatsPerBar ∧
      (nthState cState4 n).currentBeat < cState4.beatsPerBar) :=
  ⟨⟨by decide, rfl⟩, beat_index_cycles cState4 (by decide) rfl⟩

/-! ### C5: stop-then-start resets the playback cursor -/

/-- C5: `stop()` followed by `start()` produces a fresh playback cursor —
beat index 0, bar count 0, `nextNoteTime = now + leadIn` — whatever the prior
run state was, and `start()` while already playing changes nothing. -/
theorem stop_start_resets (s : EngineState) (now : ℚ) :
    (start now (stop s)).currentBeat = 0 ∧
    (start now (stop s)).barCount = 0 ∧
    (start now (stop s)).nextNoteTime = now + leadIn ∧
    (start now (stop s)).isPlaying = true ∧
    (s.isPlaying = true → start now s = s) := by
  refine ⟨?_, ?_, ?_, ?_, ?_⟩
  · simp [start, stop]
  · simp [start, stop]
  · simp [start, stop]
  · simp [start, stop]
  · intro h; simp [start, h]

/-- A mid-run state with nonzero counters, to restart from. -/
def cState5 : EngineState :=
  { isPlaying := true, nextNoteTime := 123, currentBeat := 7, barCount := 9,
    bpm := 95, beatsPerBar := 3, increaseAmount := 0, increaseIntervalBars := 2,
    maxBpm := 160 }

/-- Witness for C5: restarting the concrete mid-run state `cState5` at
clock 50. -/
theorem stop_start_resets_witness :
    (start 50 (stop cState5)).currentBeat = 0 ∧
    (start 50 (stop cState5)).barCount = 0 ∧
    (start 50 (stop cState5)).nextNoteTime = 50 + leadIn ∧
    (start 50 (stop cState5)).isPlaying = true ∧
    (cState5.isPlaying = true → start 50 cState5 = cState5) :=
  stop_start_resets cState5 50

/-! ### C10: lowering beatsPerBar below the beat index freezes bars forever -/

theorem nextNote_no_wrap_snd (u : EngineState)
    (h : u.currentBeat + 1 ≠ u.beatsPerBar) : (nextNote u).2 = none := by
  simp [nextNote, h]

/-- In a state whose beat index has already reached `beatsPerBar`, every
advance only increments the beat index; bars, tempo and notifications are
frozen. -/
theorem runaway_beat (u : EngineState) (h : u.beatsPerBar ≤ u.currentBeat) :
    ∀ n : ℕ, (nthState u n).currentBeat = u.currentBeat + n ∧
      (nthState u n).barCount = u.barCount ∧ (nthState u n).bpm = u.bpm ∧
      (nextNote (nthState u n)).2 = none := by
  intro n
  induction n with
  | zero =>
    refine ⟨by simp [nthState], by simp [nthState], by simp [nthState], ?_⟩
    simp only [nthState, Function.iterate_zero_apply]
    exact nextNote_no_wrap_snd u (by omega)
  | succ n ih =>
    obtain ⟨ib, ibar, ibpm, -⟩ := ih
    obtain ⟨cB, -, -, -, -⟩ := nthState_const u n
    have hgt : (nthState u n).currentBeat + 1 ≠ (nthState u n).beatsPerBar := by
      rw [ib, cB]; omega
    obtain ⟨e0, ebar, ebpm⟩ := stepState_no_wrap _ hgt
    rw [nthState_succ_outer]
    refine ⟨by rw [e0, ib]; omega, by rw [ebar, ibar], by rw [ebpm, ibpm], ?_⟩
    apply nextNote_no_wrap_snd
    rw [← nthState_succ_outer]
    obtain ⟨cB1, -, -, -, -⟩ := nthState_const u (n + 1)
    rw [cB1, nthState_succ_outer, e0, ib]
    omega

/-- C10: bar completion is the equality test, not `≥`.  If `setSettings`
lowers `beatsPerBar` to at most the current beat index during a run, then on
every later advance the beat index only grows (it is never reset), the bar
count and the tempo never change again, and no ramp notification ever fires. -/
theorem lowered_beatsPerBar_freezes (s : EngineState) (bpm : ℚ) (b : ℕ)
    (a : ℚ) (i : ℕ) (m : ℚ) (hle : b ≤ s.currentBeat) :
    ∀ n : ℕ,
      (nthState (setSettings s bpm b a i m) n).currentBeat = s.currentBeat + n ∧
      (nthState (setSettings s bpm b a i m) n).barCount = s.barCount ∧
      (nthState (setSettings s bpm b a i m) n).bpm = bpm ∧
      (nextNote (nthState (setSettings s bpm b a i m) n)).2 = none := by
  have h : (setSettings s bpm b a i m).beatsPerBar ≤
      (setSettings s bpm b a i m).currentBeat := by
    simp only [setSettings]
    exact hle
  intro n
  obtain ⟨e0, ebar, ebpm, enone⟩ := runaway_beat (setSettings s bpm b a i m) h n
  exact ⟨e0, ebar, ebpm, enone⟩

/-- Witness for C10: `cState5` (beat index 7) with `beatsPerBar` lowered
to 2. -/
theorem lowered_beatsPerBar_freezes_witness :
    ((2 : ℕ) ≤ cState5.currentBeat) ∧
    (∀ n : ℕ,
      (nthState (setSettings cState5 95 2 5 4 160) n).currentBeat =
        cState5.currentBeat + n ∧
      (nthState (setSettings cState5 95 2 5 4 160) n).barCount = cState5.barCount ∧
      (nthState (setSettings cState5 95 2 5 4 160) n).bpm = 95 ∧
      (nextNote (nthState (setSettings cState5 95 2 5 4 160) n)).2 = none) :=
  ⟨by decide, lowered_beatsPerBar_freezes cState5 95 2 5 4 160 (by decide)⟩

/-! ### C7: an emission failure and the poll loop -/

/-- `scheduler()`'s while loop when sound emission may throw.  The source has
no try/catch anywhere in `scheduler`/`scheduleNote`: a throw inside
`scheduleNote` escapes the loop before `nextNote()` runs and skips the
trailing `setTimeout` re-arm of `scheduler()`.  `fails` says whether emitting
a given `(beat, time)` pair throws; the final `Bool` records whether the
re-arm line was reached. -/
def schedulerRunF (fails : ℕ → ℚ → Bool) :
    ℕ → ℚ → EngineState → EngineState × List Ev × Bool
  | 0, _, s => (s, [], true)
  | fuel + 1, now, s =>
    if s.nextNoteTime < now + scheduleAheadTime then
      if fails s.currentBeat s.nextNoteTime then (s, [], false)
      else
        let ev : Ev := ⟨s.currentBeat, s.nextNoteTime⟩
        let r := schedulerRunF fails fuel now (stepState s)
        (r.1, ev :: r.2.1, r.2.2)
    else (s, [], true)

/-- Emission of the accent beat throws; all other beats succeed. -/
def failsOnFirst : ℕ → ℚ → Bool := fun b _ => b == 0

/-- No emission ever throws. -/
def neverFails : ℕ → ℚ → Bool := fun _ _ => false

/-- A fresh running state at 1200 bpm, so that two beats (times 0 and 1/20)
fall inside one 0.1 s lookahead window. -/
def cState7 : EngineState :=
  { isPlaying := true, nextNoteTime := 0, currentBeat := 0, barCount := 0,
    bpm := 1200, beatsPerBar := 4, increaseAmount := 0, increaseIntervalBars := 0,
    maxBpm := 200 }

/-- C7 counterexample: an emission failure on the first due beat of a poll
aborts the whole iteration — the second due beat (time 1/20, inside the
window) is never scheduled and the poll is not re-armed — whereas the
failure-free run schedules both due beats.  This refutes the claim that the
remaining due beats are still scheduled and the poll re-armed. -/
theorem emission_failure_aborts_poll :
    (schedulerRunF failsOnFirst 3 0 cState7).2.1 = [] ∧
    (schedulerRunF failsOnFirst 3 0 cState7).2.2 = false ∧
    (schedulerRun 3 0 cState7).2 = [⟨0, 0⟩, ⟨1, 1 / 20⟩] := by
  refine ⟨?_, ?_, ?_⟩ <;>
    norm_num [schedulerRunF, schedulerRun, failsOnFirst, cState7, stepState,
      nextNote, handleSpeedIncrease, scheduleAheadTime]

/-- C7 (amended): the poll loop has no exception guard.  If emitting the first
due beat of an iteration fails, the iteration aborts at once — nothing is
scheduled, the cursor does not advance, and the poll is not re-armed (so no
later beat is ever scheduled).  Only when no emission fails does the
iteration drain the window exactly like the plain loop and re-arm itself. -/
theorem emission_failure_policy (fails : ℕ → ℚ → Bool) (now : ℚ) :
    (∀ s : EngineState, ∀ fuel : ℕ, s.nextNoteTime < now + scheduleAheadTime →
      fails s.currentBeat s.nextNoteTime = true →
      schedulerRunF fails (fuel + 1) now s = (s, [], false)) ∧
    (∀ s : EngineState, ∀ fuel : ℕ, (∀ b : ℕ, ∀ t : ℚ, fails b t = false) →
      schedulerRunF fails fuel now s =
        ((schedulerRun fuel now s).1, (schedulerRun fuel now s).2, true)) := by
  constructor
  · intro s fuel hdue hfail
    simp [schedulerRunF, hdue, hfail]
  · intro s fuel hok
    induction fuel generalizing s with
    | zero => simp [schedulerRunF, schedulerRun]
    | succ fuel ih =>
      by_cases hdue : s.nextNoteTime < now + scheduleAheadTime
      · simp [schedulerRunF, schedulerRun, hdue, hok, ih (stepState s)]
      · simp [schedulerRunF, schedulerRun, hdue]

/-- Witness for the amended C7: concrete failing and failure-free runs from
`cState7`. -/
theorem emission_failure_policy_witness :
    (cState7.nextNoteTime < 0 + scheduleAheadTime ∧
      failsOnFirst cState7.currentBeat cState7.nextNoteTime = true ∧
      schedulerRunF failsOnFirst 3 0 cState7 = (cState7, [], false)) ∧
    ((∀ b : ℕ, ∀ t : ℚ, neverFails b t = false) ∧
      schedulerRunF neverFails 3 0 cState7 =
        ((schedulerRun 3 0 cState7).1, (schedulerRun 3 0 cState7).2, true)) :=
  ⟨⟨by norm_num [cState7, scheduleAheadTime], rfl,
      (emission_failure_policy failsOnFirst 0).1 cState7 2
        (by norm_num [cState7, scheduleAheadTime]) rfl⟩,
    ⟨fun _ _ => rfl,
      (emission_failure_policy neverFails 0).2 cState7 3 (fun _ _ => rfl)⟩⟩

/-! ### C6: the accent distinction across sound variants -/

/-- The selectable sound variants of the engine with sound-type dispatch. -/
inductive SoundType where
  | beep
  | click
  | woodblock
  | cowbell
  | kick
  | snare
  | drumset
deriving DecidableEq, Repr

/-- One synthesised component of a click, carrying every parameter the source
sets on the audio graph.  Offsets and durations are relative to the scheduled
time, so two beats emit the same sound exactly when their specs are equal. -/
inductive NodeSpec where
  /-- plain sine oscillator (`playBeep`, `playClick`) -/
  | tone (freq gain dur : ℚ)
  /-- band-pass filtered square oscillator (`playWoodblock`) -/
  | filteredSquare (oscFreq filterFreq q gain dur : ℚ)
  /-- two square oscillators through one band-pass filter (`playCowbell`) -/
  | dualSquare (freq1 freq2 filterFreq q gain dur : ℚ)
  /-- oscillator with an exponential pitch sweep (`playKick`, drumset kick) -/
  | sweep (freqStart freqEnd sweepDur gain dur : ℚ)
  /-- high-passed noise plus a sine oscillator (`playSnare`, drumset snare) -/
  | noiseSnare (oscFreq highpassFreq gain noiseDur oscDur : ℚ)
  /-- high-passed noise burst (`playHiHat`), starting `offset` after the beat -/
  | hihat (offset highpassFreq q gain dur : ℚ)
deriving DecidableEq, Repr

/-- `playBeep`: 1000 Hz at gain 1 on the accent, 800 Hz at gain 0.6 otherwise,
0.1 s long. -/
def playBeep (beatNumber : ℕ) : List NodeSpec :=
  if beatNumber = 0 then [.tone 1000 1 (1 / 10)]
  else [.tone 800 (6 / 10) (1 / 10)]

/-- `playClick`: 1500 Hz at gain 0.8 on the accent, 1200 Hz at gain 0.5
otherwise, 0.02 s long. -/
def playClick (beatNumber : ℕ) : List NodeSpec :=
  if beatNumber = 0 then [.tone 1500 (8 / 10) (1 / 50)]
  else [.tone 1200 (5 / 10) (1 / 50)]

/-- `playWoodblock`: square through a Q-20 band-pass; 800/1500 Hz at gain 0.7
on the accent, 600/1200 Hz at gain 0.5 otherwise, 0.05 s long. -/
def playWoodblock (beatNumber : ℕ) : List NodeSpec :=
  if beatNumber = 0 then [.filteredSquare 800 1500 20 (7 / 10) (1 / 20)]
  else [.filteredSquare 600 1200 20 (5 / 10) (1 / 20)]

/-- `playCowbell`: two squares through a Q-10 band-pass at 800 Hz; 540+800 Hz
at gain 0.6 on the accent, 500+750 Hz at gain 0.4 otherwise, 0.08 s long. -/
def playCowbell (beatNumber : ℕ) : List NodeSpec :=
  if beatNumber = 0 then [.dualSquare 540 800 800 10 (6 / 10) (2 / 25)]
  else [.dualSquare 500 750 800 10 (4 / 10) (2 / 25)]

/-- `playKick`: pitch sweep 150→50 Hz over 0.1 s at gain 1.2 on the accent,
120→40 Hz over 0.08 s at gain 0.8 otherwise, stopping after 0.15 s. -/
def playKick (beatNumber : ℕ) : List NodeSpec :=
  if beatNumber = 0 then [.sweep 150 50 (1 / 10) (12 / 10) (3 / 20)]
  else [.sweep 120 40 (2 / 25) (8 / 10) (3 / 20)]

/-- `playSnare`: high-passed (1000 Hz) noise plus a 200 Hz sine; gain 0.8 on
the accent, 0.5 otherwise; noise 0.15 s, oscillator 0.08 s. -/
def playSnare (beatNumber : ℕ) : List NodeSpec :=
  if beatNumber = 0 then [.noiseSnare 200 1000 (8 / 10) (3 / 20) (2 / 25)]
  else [.noiseSnare 200 1000 (5 / 10) (3 / 20) (2 / 25)]

/-- `playHiHat`: a 0.05 s burst of noise high-passed at 7000 Hz (Q 1). -/
def playHiHat (offset volume : ℚ) : List NodeSpec :=
  [.hihat offset 7000 1 volume (1 / 20)]

/-- `playDrumset`: kick (identical to the accent kick) on beats 0 and 2, snare
at gain 0.8 on beats 1 and 3, plus two hi-hats — one on the beat at volume
0.3, one an eighth note (`60/bpm/2`) later at volume 0.2. -/
def playDrumset (bpm : ℚ) (beatNumber : ℕ) : List NodeSpec :=
  (if beatNumber = 0 ∨ beatNumber = 2 then [.sweep 150 50 (1 / 10) (12 / 10) (3 / 20)]
   else []) ++
  (if beatNumber = 1 ∨ beatNumber = 3 then [.noiseSnare 200 1000 (8 / 10) (3 / 20) (2 / 25)]
   else []) ++
  playHiHat 0 (3 / 10) ++ playHiHat (60 / bpm / 2) (2 / 10)

/-- The sound content `scheduleNote` emits for a beat, by selected variant
(the drumset's second hi-hat offset depends on the current bpm). -/
def scheduleNoteSound (v : SoundType) (bpm : ℚ) (beatNumber : ℕ) : List NodeSpec :=
  match v with
  | .beep => playBeep beatNumber
  | .click => playClick beatNumber
  | .woodblock => playWoodblock beatNumber
  | .cowbell => playCowbell beatNumber
  | .kick => playKick beatNumber
  | .snare => playSnare beatNumber
  | .drumset => playDrumset bpm beatNumber

/-- C6 counterexample: in the drumset variant, beat 2 emits exactly the accent
beat's sound (the same kick and the same two hi-hats), so the accent
distinction does not hold for every variant and every nonzero beat index. -/
theorem accent_distinct_counterexample :
    scheduleNoteSound .drumset 120 0 = scheduleNoteSound .drumset 120 2 := rfl

/-- C6 (amended: except drumset beat 2): in every variant other than drumset
the accent sound differs from the sound of every other beat index; in the
drumset variant it differs from every other beat index except 2, which
receives exactly the accent's sound. -/
theorem accent_distinct_per_variant (v : SoundType) (bpm : ℚ) (b : ℕ) (hb : b ≠ 0) :
    (v ≠ .drumset → scheduleNoteSound v bpm 0 ≠ scheduleNoteSound v bpm b) ∧
    (b ≠ 2 → scheduleNoteSound .drumset bpm 0 ≠ scheduleNoteSound .drumset bpm b) ∧
    scheduleNoteSound .drumset bpm 2 = scheduleNoteSound .drumset bpm 0 := by
  refine ⟨?_, ?_, rfl⟩
  · intro hv
    cases v with
    | beep => norm_num [scheduleNoteSound, playBeep, hb]
    | click => norm_num [scheduleNoteSound, playClick, hb]
    | woodblock => norm_num [scheduleNoteSound, playWoodblock, hb]
    | cowbell => norm_num [scheduleNoteSound, playCowbell, hb]
    | kick => norm_num [scheduleNoteSound, playKick, hb]
    | snare => norm_num [scheduleNoteSound, playSnare, hb]
    | drumset => exact absurd rfl hv
  · intro hb2
    match b, hb, hb2 with
    | 1, _, _ =>
      norm_num [scheduleNoteSound, playDrumset, playHiHat]
      exact fun h => NodeSpec.noConfusion h
    | 3, _, _ =>
      norm_num [scheduleNoteSound, playDrumset, playHiHat]
      exact fun h => NodeSpec.noConfusion h
    | (n + 4), _, _ =>
      have h1 : ¬(n + 4 = 0 ∨ n + 4 = 2) := by omega
      have h2 : ¬(n + 4 = 1 ∨ n + 4 = 3) := by omega
      have h3 : ((0 : ℕ) = 0 ∨ (0 : ℕ) = 2) := Or.inl rfl
      have h4 : ¬((0 : ℕ) = 1 ∨ (0 : ℕ) = 3) := by omega
      intro h
      have hlen := congrArg List.length h
      simp [scheduleNoteSound, playDrumset, playHiHat, h1, h2, h3, h4] at hlen

/-- Witness for the amended C6: beep and drumset at bpm 120, beat 3. -/
theorem accent_distinct_per_variant_witness :
    ((3 : ℕ) ≠ 0) ∧
    ((SoundType.beep ≠ SoundType.drumset →
        scheduleNoteSound .beep 120 0 ≠ scheduleNoteSound .beep 120 3) ∧
      ((3 : ℕ) ≠ 2 →
        scheduleNoteSound .drumset 120 0 ≠ scheduleNoteSound .drumset 120 3) ∧
      scheduleNoteSound .drumset 120 2 = scheduleNoteSound .drumset 120 0) :=
  ⟨by decide, accent_distinct_per_variant .beep 120 3 (by decide)⟩

/-! ### C8, C9: preset import and export -/

/-- A parsed JSON value (the result of `JSON.parse`; a missing property is
modelled as `null`, like `undefined`). -/
inductive Json where
  | null
  | bool (b : Bool)
  | num (q : ℚ)
  | str (s : String)
  | arr (xs : List Json)
  | obj (fields : List (String × Json))

/-- JS truthiness of a parsed value. -/
def truthy : Json → Bool
  | .null => false
  | .bool b => b
  | .num q => q != 0
  | .str s => s != ""
  | .arr _ => true
  | .obj _ => true

/-- JS property access: the named field of an object, `null` (undefined)
otherwise.  `JSON.parse` yields unique keys, found in order. -/
def getField : Json → String → Json
  | .obj fields, k => (List.lookup k fields).getD .null
  | _, _ => .null

/-- The own enumerable fields that object spread copies. -/
def objFields : Json → List (String × Json)
  | .obj fields => fields
  | _ => []

/-- Rest-destructuring minus one key: every field except the named one. -/
def removeField (fields : List (String × Json)) (k : String) :
    List (String × Json) :=
  fields.filter (fun p => p.1 != k)

/-- The string content of a value (the imported `soundType` is stored as is;
it is only consulted when truthy). -/
def asString : Json → String
  | .str s => s
  | _ => ""

/-- The numeric content of a value (used for the imported `startBpm`). -/
def asNum : Json → ℚ
  | .num q => q
  | _ => 0

/-- The App component state the preset logic touches: the settings object,
the selected sound variant, the playing flag and the displayed bpm. -/
structure AppState where
  settings : Json
  soundType : String
  isPlaying : Bool
  currentBpm : ℚ

/-- `exportPreset`: the JSON object written to the preset file — the dated
preset name, and the current settings spread together with the current sound
variant under `soundType`. -/
def exportPreset (name : String) (st : AppState) : Json :=
  .obj [("name", .str name),
        ("settings", .obj (objFields st.settings ++
          [("soundType", .str st.soundType)]))]

/-- `importPreset` after `JSON.parse` (`none` = the parse threw).  The `Bool`
result is `true` exactly when the failure alert is shown: the `try` block also
wraps the `preset.settings` access, so a parsed top-level `null` — whose
member access throws a TypeError — is caught and alerted just like a parse
failure.  On any other parsed value: if `preset.settings` is truthy, its
fields minus `soundType` replace the settings wholesale, a truthy `soundType`
replaces the sound variant, and when not playing `currentBpm` is reseeded
from the imported `startBpm`; otherwise nothing happens at all, silently. -/
def importPreset (parsed : Option Json) (st : AppState) : AppState × Bool :=
  match parsed with
  | none => (st, true)
  | some .null => (st, true)
  | some preset =>
    let sets := getField preset "settings"
    if truthy sets then
      let fields := objFields sets
      let importedSound := getField sets "soundType"
      let importedSettings := Json.obj (removeField fields "soundType")
      let st1 := { st with settings := importedSettings }
      let st2 := if truthy importedSound then
          { st1 with soundType := asString importedSound } else st1
      let st3 := if st2.isPlaying then st2
          else { st2 with currentBpm := asNum (getField importedSettings "startBpm") }
      (st3, false)
    else (st, false)

/-- The app's initial settings state: defaults, beep variant, stopped. -/
def cApp8 : AppState :=
  { settings := .obj [("startBpm", .num 80), ("maxBpm", .num 200),
      ("increaseAmount", .num 0), ("increaseIntervalBars", .num 4),
      ("beatsPerBar", .num 4)],
    soundType := "beep", isPlaying := false, currentBpm := 80 }

/-- C8 counterexample: importing a JSON file that parses but has no
`settings` member leaves the state untouched — but reports no failure
(`false`), refuting the claim that the failure is reported visibly. -/
theorem import_missing_settings_counterexample :
    (importPreset (some (.obj [("name", .str "preset")])) cApp8).1 = cApp8 ∧
    (importPreset (some (.obj [("name", .str "preset")])) cApp8).2 = false :=
  ⟨rfl, rfl⟩

/-- C8 (amended: the report happens only on a throw): importing a parsed file
whose top level has no truthy `settings` member always leaves every setting
and the sound variant unchanged (no partial apply).  The failure is reported
visibly exactly when the import code throws inside its `try`: when the file
fails to parse, or when the parsed top level is `null`, whose
`preset.settings` access throws a TypeError caught by the same handler.  For
every other parsed top level without a truthy `settings` member — such as an
object simply lacking the key — the import is silently ignored, with no
report. -/
theorem import_missing_settings_policy (st : AppState) (j : Json)
    (h : truthy (getField j "settings") = false) (hnull : j ≠ Json.null) :
    importPreset (some j) st = (st, false) ∧
    importPreset (some Json.null) st = (st, true) ∧
    importPreset none st = (st, true) := by
  refine ⟨?_, rfl, rfl⟩
  cases j with
  | null => exact absurd rfl hnull
  | bool b => simp [importPreset, h]
  | num q => simp [importPreset, h]
  | str s => simp [importPreset, h]
  | arr xs => simp [importPreset, h]
  | obj fs => simp [importPreset, h]

/-- Witness for the amended C8 at the concrete state and file. -/
theorem import_missing_settings_policy_witness :
    (truthy (getField (Json.obj [("name", Json.str "preset")]) "settings") = false ∧
      Json.obj [("name", Json.str "preset")] ≠ Json.null) ∧
    (importPreset (some (Json.obj [("name", Json.str "preset")])) cApp8 =
        (cApp8, false) ∧
      importPreset (some Json.null) cApp8 = (cApp8, true) ∧
      importPreset none cApp8 = (cApp8, true)) :=
  ⟨⟨rfl, fun h => Json.noConfusion h⟩,
    import_missing_settings_policy cApp8 (Json.obj [("name", Json.str "preset")]) rfl
      (fun h => Json.noConfusion h)⟩

theorem lookup_skip (k : String) (tail : List (String × Json)) :
    ∀ fields : List (String × Json), (∀ p ∈ fields, ¬ p.1 = k) →
      List.lookup k (fields ++ tail) = List.lookup k tail := by
  intro fields hno
  induction fields with
  | nil => rfl
  | cons p fs ih =>
    have hp : ¬ p.1 = k := hno p (by simp)
    have hbeq : (k == p.1) = false :=
      beq_eq_false_iff_ne.mpr (fun h => hp h.symm)
    cases p with
    | mk a v =>
      simp only [List.cons_append, List.lookup]
      simp only at hbeq
      rw [hbeq]
      exact ih (fun q hq => hno q (by simp [hq]))

theorem removeField_append_self (fields : List (String × Json)) (k : String)
    (v : Json) (hno : ∀ p ∈ fields, ¬ p.1 = k) :
    removeField (fields ++ [(k, v)]) k = fields := by
  unfold removeField
  rw [List.filter_append]
  have h1 : fields.filter (fun p => p.1 != k) = fields :=
    List.filter_eq_self.mpr (fun p hp => by simp [hno p hp])
  have h2 : List.filter (fun p => p.1 != k) [(k, v)] = [] := by simp
  rw [h1, h2, List.append_nil]

/-- C9: export/import round trip.  When the current settings object carries
no `soundType` field (the app's settings never do) and the sound variant is a
nonempty string, importing the exported preset into any state restores
exactly the exported settings object — every field, `startBpm`, `maxBpm`,
`increaseAmount`, `increaseIntervalBars`, `beatsPerBar`, with nothing lost or
altered — and the exported sound variant. -/
theorem export_import_roundtrip (name : String) (st target : AppState)
    (fields : List (String × Json)) (hset : st.settings = .obj fields)
    (hno : ∀ p ∈ fields, ¬ p.1 = "soundType")
    (hsnd : ¬ st.soundType = "") :
    (importPreset (some (exportPreset name st)) target).1.settings = st.settings ∧
    (importPreset (some (exportPreset name st)) target).1.soundType = st.soundType := by
  obtain ⟨setts, snd, playing, cbpm⟩ := st
  obtain ⟨tsetts, tsnd, tplaying, tbpm⟩ := target
  simp only at hset hsnd
  subst hset
  have hlook : List.lookup "soundType" (fields ++ [("soundType", Json.str snd)]) =
      some (Json.str snd) := by
    rw [lookup_skip "soundType" _ fields hno]
    simp [List.lookup]
  have hrem := removeField_append_self fields "soundType" (Json.str snd) hno
  cases tplaying <;>
    simp [importPreset, exportPreset, getField, objFields, truthy, asString,
      List.lookup, hlook, hrem, hsnd]

/-- A different target state to import into. -/
def cApp9t : AppState :=
  { settings := .obj [], soundType := "click", isPlaying := true,
    currentBpm := 120 }

/-- Witness for C9: the default settings exported under the beep variant and
re-imported into a different state. -/
theorem export_import_roundtrip_witness :
    (cApp8.settings = Json.obj [("startBpm", Json.num 80), ("maxBpm", Json.num 200),
        ("increaseAmount", Json.num 0), ("increaseIntervalBars", Json.num 4),
        ("beatsPerBar", Json.num 4)] ∧
      (∀ p ∈ [("startBpm", Json.num 80), ("maxBpm", Json.num 200),
        ("increaseAmount", Json.num 0), ("increaseIntervalBars", Json.num 4),
        ("beatsPerBar", Json.num 4)], ¬ p.1 = "soundType") ∧
      ¬ cApp8.soundType = "") ∧
    ((importPreset (some (exportPreset "Accelerando_Preset_2024-01-01" cApp8))
        cApp9t).1.settings = cApp8.settings ∧
      (importPreset (some (exportPreset "Accelerando_Preset_2024-01-01" cApp8))
        cApp9t).1.soundType = cApp8.soundType) :=
  ⟨⟨rfl, by decide, by decide⟩,
    export_import_roundtrip "Accelerando_Preset_2024-01-01" cApp8 cApp9t _ rfl
      (by decide) (by decide)⟩

end Accelerando
